import Mathlib

/-!
Shallow embedding of `src/pfb/exporters/frictionless.py`: conversion of a
PFB record stream into frictionless data packages (one per project), with
schema translation (type mapping, enums, primary keys, foreign keys), a
streaming per-(project, node) table writer, and a package descriptor emitter.

Python `dict` / `OrderedDict` values are modelled as association lists whose
`set` operation updates an existing key in place (keeping its position, as
Python does) or appends a new key at the end.  JSON-serialisable Python
values are modelled by the `JSON` inductive.  File contents are modelled
pre-serialisation: a JSON file stores the value passed to `json.dumps`, a
tab-separated file stores its rendered lines.
-/

namespace PFB

/-- JSON-serialisable Python values (None, bool, int, str, list, dict). -/
inductive JSON where
  | null
  | bool (b : Bool)
  | int (n : Int)
  | str (s : String)
  | arr (xs : List JSON)
  | obj (kvs : List (String × JSON))

/-- A Python `dict` / `OrderedDict` with string keys. -/
abbrev Dict := List (String × JSON)

/-- `d[k] = v` on a Python dict: update in place if the key exists
(keeping its position), otherwise append at the end. -/
def assocSet {κ α : Type} [DecidableEq κ] (d : List (κ × α)) (k : κ) (v : α) :
    List (κ × α) :=
  match d with
  | [] => [(k, v)]
  | p :: rest => if p.1 = k then (k, v) :: rest else p :: assocSet rest k v

/-- `d.get(k)` on a Python dict. -/
def assocGet {κ α : Type} [DecidableEq κ] (d : List (κ × α)) (k : κ) : Option α :=
  match d with
  | [] => none
  | p :: rest => if p.1 = k then some p.2 else assocGet rest k

/-- `k in d` on a Python dict. -/
def hasKey {κ α : Type} [DecidableEq κ] (d : List (κ × α)) (k : κ) : Bool :=
  (assocGet d k).isSome

/-- `d.update(kvs)` on a Python dict. -/
def odUpdate (d kvs : Dict) : Dict :=
  kvs.foldl (fun a p => assocSet a p.1 p.2) d

/-- One alternative in an Avro union type: either a scalar tag such as
"string" / "long" / "null", or a complex type object; the code only looks at
complex objects whose `type` is "enum", where `symbols` matters. -/
inductive AvroType where
  | scalar (tag : String)
  | complex (kind : String) (symbols : List String)
deriving DecidableEq, Repr

/-- A field of a source node schema: `{name, type: [alternatives]}`. -/
structure SourceField where
  name : String
  type : List AvroType
deriving DecidableEq, Repr

/-- Per-field metadata from `metadata.nodes[].properties`:
`{name, ontology_reference, values}`.  `values` carries the extra
annotations spread into the descriptor. -/
structure FieldMeta where
  name : String
  ontology_reference : Option String
  values : Dict

/-- A declared link of a node: `{name, dst}`. -/
structure Link where
  name : String
  dst : String
deriving DecidableEq, Repr

/-- One entry of `reader.metadata['nodes']`. -/
structure NodeMetadata where
  name : String
  properties : List FieldMeta
  links : List Link
  ontology_reference : Option String
  values : Dict

/-- One entry of `reader.schema`: a source node schema. -/
structure NodeSchema where
  name : String
  fields : List SourceField
deriving DecidableEq, Repr

/-- One entry of a record's `relations` list: `{dst_name, dst_id}`. -/
structure Relation where
  dst_name : String
  dst_id : JSON

/-- One PFB record: `{name, object, relations}`; `object` holds the field
values including `project_id`. -/
structure PFBRecord where
  name : String
  object : Dict
  relations : List Relation

/-- Python `str.lower()` (ASCII, which is all the code relies on),
written over the character list so that it evaluates by kernel reduction. -/
def pyLower (s : String) : String :=
  String.mk (s.data.map Char.toLower)

/-- Python truthiness of an optional string (`None` and `""` are falsy). -/
def truthyStr : Option String → Bool
  | none => false
  | some s => !(s == "")

/-- The fixed scalar type map of `_add_type`. -/
def type_map : String → Option String
  | "string" => some "string"
  | "float" => some "number"
  | "long" => some "integer"
  | "boolean" => some "boolean"
  | _ => none

/-- One iteration of the loop in `_add_type`: an enum alternative sets
`type` to "string" and `constraints` to the enum symbols; a scalar tag in
the map sets `type`; anything else is skipped. -/
def addTypeStep (d : Dict) (t : AvroType) : Dict :=
  match t with
  | AvroType.complex kind symbols =>
      if kind = "enum" then
        assocSet (assocSet d "type" (JSON.str "string")) "constraints"
          (JSON.obj [("enum", JSON.arr (symbols.map JSON.str))])
      else d
  | AvroType.scalar tag =>
      match type_map tag with
      | some m => assocSet d "type" (JSON.str m)
      | none => d

/-- `_add_type(field, descriptor)`: fold the loop body over the field's
type alternatives. -/
def _add_type (field : SourceField) (d : Dict) : Dict :=
  field.type.foldl addTypeStep d

/-- `_field_descriptor(field, meta)`. -/
def _field_descriptor (field : SourceField) (meta : Option FieldMeta) : Dict :=
  let d : Dict := [("name", JSON.str field.name)]
  let d := _add_type field d
  match meta with
  | none => d
  | some m =>
    if m.name = field.name then
      let d := if truthyStr m.ontology_reference then
          assocSet d "ontology_reference"
            (JSON.str (m.ontology_reference.getD "")) else d
      if m.values.isEmpty then d else odUpdate d m.values
    else d

/-- The foreign key built from one link in `_add_foreign_keys`. -/
def foreignKeyOf (l : Link) : JSON :=
  JSON.obj [("fields", JSON.str l.name),
            ("reference", JSON.obj [("resource", JSON.str l.dst),
                                    ("fields", JSON.str "submitter_id")])]

/-- `_add_foreign_keys(schema, links)`: append one untyped field per link to
`schema['fields']` and set `schema['foreignKeys']`. -/
def _add_foreign_keys (schema : Dict) (links : List Link) : Dict :=
  let schema :=
    match assocGet schema "fields" with
    | some (JSON.arr fs) =>
        assocSet schema "fields"
          (JSON.arr (fs ++ links.map (fun l => JSON.obj [("name", JSON.str l.name)])))
    | _ => schema
  assocSet schema "foreignKeys" (JSON.arr (links.map foreignKeyOf))

/-- The dict comprehension over `meta['properties']` in `_get_schema`
(later entries with the same name win), applied at one name. -/
def fld_meta_lookup (props : List FieldMeta) (n : String) : Option FieldMeta :=
  (props.filter (fun p => p.name = n)).getLast?

/-- The field descriptors built from a node's declared fields
(the `fields` list of `_get_schema` before links are appended). -/
def builtFields (node : NodeSchema) (meta : NodeMetadata) : List Dict :=
  node.fields.map (fun f => _field_descriptor f (fld_meta_lookup meta.properties f.name))

/-- The membership test `'submitter_id' in [f['name'] for f in fields]`
of `_get_schema`. -/
def submitterCheck (fields : List Dict) : Bool :=
  fields.any (fun f =>
    match assocGet f "name" with
    | some (JSON.str s) => s == "submitter_id"
    | _ => false)

/-- `_get_schema(record, meta)`: translate one Gen3 node schema into a
frictionless table schema. -/
def _get_schema (node : NodeSchema) (meta : NodeMetadata) : Dict :=
  let fields := builtFields node meta
  let schema : Dict := [("fields", JSON.arr (fields.map JSON.obj))]
  let schema :=
    if submitterCheck fields
    then assocSet schema "primaryKey" (JSON.str "submitter_id") else schema
  let schema := if meta.links.isEmpty then schema
    else _add_foreign_keys schema meta.links
  let schema := if truthyStr meta.ontology_reference then
      assocSet schema "ontology_reference"
        (JSON.str (meta.ontology_reference.getD "")) else schema
  if meta.values.isEmpty then schema else odUpdate schema meta.values

/-- The dict comprehension over `reader.metadata['nodes']` in `_get_schemas`
(later entries with the same name win), applied at one name. -/
def node_meta_lookup (nodes : List NodeMetadata) (n : String) : Option NodeMetadata :=
  (nodes.filter (fun m => m.name = n)).getLast?

/-- The loop of `_get_schemas`: `meta[node['name']]` raises `KeyError` when
a schema node has no metadata entry. -/
def _get_schemas_aux (metaNodes : List NodeMetadata) (acc : List (String × Dict)) :
    List NodeSchema → Except String (List (String × Dict))
  | [] => Except.ok acc
  | node :: rest =>
    match node_meta_lookup metaNodes node.name with
    | none => Except.error ("KeyError: no metadata for node " ++ node.name)
    | some m => _get_schemas_aux metaNodes (assocSet acc node.name (_get_schema node m)) rest

/-- `_get_schemas(reader)`: the schema catalog, node name to table schema. -/
def _get_schemas (schemaList : List NodeSchema) (metaNodes : List NodeMetadata) :
    Except String (List (String × Dict)) :=
  _get_schemas_aux metaNodes [] schemaList

/-- How `csv` renders one cell value (`None` becomes the empty string,
booleans use Python capitalisation).  Lists and dicts never occur as cell
values in the data handled here. -/
def jsonCell : JSON → String
  | JSON.null => ""
  | JSON.bool b => if b then "True" else "False"
  | JSON.int n => toString n
  | JSON.str s => s
  | JSON.arr _ => "<list>"
  | JSON.obj _ => "<dict>"

/-- Whether `csv` QUOTE_MINIMAL quoting applies to a cell of a
tab-delimited file. -/
def needsQuote (s : String) : Bool :=
  s.data.any (fun c => c == '\t' || c == '\n' || c == '\r' || c == '"')

/-- Quote one cell the way `csv` does for a tab-delimited file. -/
def quoteCell (s : String) : String :=
  if needsQuote s then
    "\"" ++ String.join (s.toList.map
      (fun c => if c = '"' then "\"\"" else String.singleton c)) ++ "\""
  else s

/-- Render one row as a line of a tab-separated file. -/
def renderRow (cells : List String) : String :=
  String.intercalate "\t" (cells.map quoteCell)

/-- `csv.DictWriter.writerow` semantics with the default
`extrasaction="raise"` and `restval=None`: a key of the row dict that is not
among the field names raises `ValueError`; otherwise cells follow field-name
order, with missing keys rendered empty. -/
def dictWriterRow (fieldnames : List String) (rowdict : Dict) :
    Except String (List String) :=
  if rowdict.any (fun p => !(fieldnames.contains p.1)) then
    Except.error "ValueError: dict contains fields not in fieldnames"
  else
    Except.ok (fieldnames.map (fun k =>
      match assocGet rowdict k with
      | some v => jsonCell v
      | none => ""))

/-- The dict comprehension over `record['relations']` in `_write_record`
(later entries with the same `dst_name` win), applied at one name. -/
def relationLookup (rels : List Relation) (n : String) : Option JSON :=
  ((rels.filter (fun r => r.dst_name = n)).getLast?).map (fun r => r.dst_id)

/-- The loop over `schema['foreignKeys']` in `_write_record`: each foreign
key writes `relations.get(resource)` (or `None`) into the row dict under the
key's `fields` name.  A malformed foreign-key entry is a runtime error, as
the corresponding Python subscripting would be. -/
def resolveFKList (rels : List Relation) : List JSON → Dict → Except String Dict
  | [], d => Except.ok d
  | fk :: rest, d =>
    match fk with
    | JSON.obj kd =>
      match assocGet kd "fields", assocGet kd "reference" with
      | some (JSON.str fname), some (JSON.obj refd) =>
        match assocGet refd "resource" with
        | some (JSON.str res) =>
            resolveFKList rels rest
              (assocSet d fname ((relationLookup rels res).getD JSON.null))
        | _ => Except.error "KeyError: malformed foreign key"
      | _, _ => Except.error "KeyError: malformed foreign key"
    | _ => Except.error "TypeError: malformed foreign key"

/-- Foreign-key resolution of `_write_record`: if the schema has a
`foreignKeys` entry, fold the loop over it, starting from the record's
object dict. -/
def resolveForeignKeys (schema : Dict) (obj : Dict) (rels : List Relation) :
    Except String Dict :=
  match assocGet schema "foreignKeys" with
  | none => Except.ok obj
  | some (JSON.arr fks) => resolveFKList rels fks obj
  | some _ => Except.error "TypeError: foreignKeys not iterable"

/-- `_write_record(writer, record, schema)`: resolve foreign keys into the
object dict, then write it as one row. -/
def _write_record (fieldnames : List String) (record : PFBRecord) (schema : Dict) :
    Except String (List String) :=
  match resolveForeignKeys schema record.object record.relations with
  | Except.error e => Except.error e
  | Except.ok d => dictWriterRow fieldnames d

/-- A path below the output root, as a list of components. -/
abbrev FPath := List String

/-- The content of one output file: a table file stores its rendered lines,
a JSON file stores the value passed to `json.dumps`. -/
inductive FileContent where
  | table (lines : List String)
  | json (v : JSON)

/-- One open `csv.DictWriter`: the file it writes to and its field names. -/
structure WriterHandle where
  path : FPath
  fieldnames : List String

/-- The state threaded through `_write_tables`: discovered packages, open
writers keyed by (project, node), and the files written so far. -/
structure TState where
  pkgs : List (String × FPath)
  writers : List ((String × String) × WriterHandle)
  files : List (FPath × FileContent)

/-- The field-name list `[f['name'] for f in schemas[table]['fields']]`. -/
def fieldNamesOf (schema : Dict) : Except String (List String) :=
  match assocGet schema "fields" with
  | some (JSON.arr fs) =>
      fs.mapM (fun f =>
        match f with
        | JSON.obj d =>
          match assocGet d "name" with
          | some (JSON.str n) => Except.ok n
          | _ => Except.error "TypeError: field name is not a string"
        | _ => Except.error "TypeError: field descriptor is not a dict")
  | _ => Except.error "TypeError: fields is not a list"

/-- Provision one table for a newly seen project: write its schema file,
truncate its data file, open a writer and write the header row. -/
def provisionOne (pid : String) (pkgdir : FPath) (tname : String) (schema : Dict)
    (st : TState) : TState × Option String :=
  let spath := pkgdir ++ ["data", pyLower tname ++ ".json"]
  let tpath := pkgdir ++ ["data", pyLower tname ++ ".tsv"]
  let st1 : TState :=
    { st with files := assocSet st.files spath (FileContent.json (JSON.obj schema)) }
  match fieldNamesOf schema with
  | Except.error e => (st1, some e)
  | Except.ok fns =>
      ({ st1 with
          files := assocSet st1.files tpath (FileContent.table [renderRow fns]),
          writers := assocSet st1.writers (pid, tname) ⟨tpath, fns⟩ }, none)

/-- The `for table in schemas` loop run on first sight of a project. -/
def provisionTables (pid : String) (pkgdir : FPath) (schemas : List (String × Dict))
    (st : TState) : TState × Option String :=
  match schemas with
  | [] => (st, none)
  | (tname, sch) :: rest =>
    match provisionOne pid pkgdir tname sch st with
    | (st1, some e) => (st1, some e)
    | (st1, none) => provisionTables pid pkgdir rest st1

/-- Append one rendered line to a table file. -/
def appendLine (files : List (FPath × FileContent)) (p : FPath) (line : String) :
    List (FPath × FileContent) :=
  match assocGet files p with
  | some (FileContent.table lines) => assocSet files p (FileContent.table (lines ++ [line]))
  | _ => files

/-- The provisioning step of `_write_tables`: on first sight of a project,
record its package directory and provision every table of the catalog. -/
def ensureProject (schemas : List (String × Dict)) (st : TState) (pid : String) :
    TState × Option String :=
  match assocGet st.pkgs pid with
  | some _ => (st, none)
  | none =>
    provisionTables pid [pyLower pid] schemas
      { st with pkgs := assocSet st.pkgs pid [pyLower pid] }

/-- The row-writing step of the record loop: look up the writer and schema
for the record's node (failing like `writers[(project_id, name)]` when the
node is unknown) and append the resolved row. -/
def writeRowPhase (schemas : List (String × Dict)) (st1 : TState) (pid : String)
    (record : PFBRecord) : TState × Option String :=
  match assocGet st1.writers (pid, record.name), assocGet schemas record.name with
  | some w, some sch =>
    match _write_record w.fieldnames record sch with
    | Except.error e => (st1, some e)
    | Except.ok cells =>
      ({ st1 with files := appendLine st1.files w.path (renderRow cells) }, none)
  | _, _ => (st1, some ("KeyError: " ++ record.name))

/-- The body of the record loop of `_write_tables` for one record:
read `project_id` (failing like `None.lower()` when it is not a string),
provision the project on first sight, then write the row. -/
def processRecord (schemas : List (String × Dict)) (st : TState) (record : PFBRecord) :
    TState × Option String :=
  match assocGet record.object "project_id" with
  | some (JSON.str pid) =>
    match ensureProject schemas st pid with
    | (st1, some e) => (st1, some e)
    | (st1, none) => writeRowPhase schemas st1 pid record
  | _ => (st, some "AttributeError: project_id is missing or not a string")

/-- The record loop of `_write_tables`: the first raised error aborts the
loop; files already flushed stay on disk. -/
def runRecords (schemas : List (String × Dict)) (st : TState) :
    List PFBRecord → TState × Option String
  | [] => (st, none)
  | r :: rs =>
    match processRecord schemas st r with
    | (st1, some e) => (st1, some e)
    | (st1, none) => runRecords schemas st1 rs

/-- The resource descriptor built for one node name in `_write_descriptor`:
`name` is lowercased but `path` and `schema` are not. -/
def resourceOf (tname : String) : JSON :=
  JSON.obj [("profile", JSON.str "tabular-data-resource"),
            ("name", JSON.str (pyLower tname)),
            ("path", JSON.str ("data/" ++ tname ++ ".tsv")),
            ("format", JSON.str "csv"),
            ("mediatype", JSON.str "text/csv"),
            ("encoding", JSON.str "utf-8"),
            ("dialect", JSON.obj [("delimiter", JSON.str "\t")]),
            ("schema", JSON.str ("data/" ++ tname ++ ".json"))]

/-- `_write_descriptor(project_id, path, schemas)`. -/
def _write_descriptor (pid : String) (pkgdir : FPath) (schemas : List (String × Dict))
    (files : List (FPath × FileContent)) : List (FPath × FileContent) :=
  let descriptor := JSON.obj [("name", JSON.str (pyLower pid)),
                              ("resources", JSON.arr (schemas.map (fun p => resourceOf p.1)))]
  assocSet files (pkgdir ++ ["datapackage.json"]) (FileContent.json descriptor)

/-- The `for pkg in pkgs` loop of the command body. -/
def writeDescriptors (pkgs : List (String × FPath)) (schemas : List (String × Dict))
    (files : List (FPath × FileContent)) : List (FPath × FileContent) :=
  pkgs.foldl (fun fs p => _write_descriptor p.1 p.2 schemas fs) files

/-- The empty writer state. -/
def emptyState : TState := ⟨[], [], []⟩

/-- The whole `frictionless` command body: build the schema catalog, run
the record loop, and on success write one package descriptor per project.
The second component is the error that propagated, if any. -/
def runFrictionless (schemaList : List NodeSchema) (metaNodes : List NodeMetadata)
    (records : List PFBRecord) : TState × Option String :=
  match _get_schemas schemaList metaNodes with
  | Except.error e => (emptyState, some e)
  | Except.ok schemas =>
    match runRecords schemas emptyState records with
    | (st, some e) => (st, some e)
    | (st, none) => ({ st with files := writeDescriptors st.pkgs schemas st.files }, none)

/-! ## Association list lemmas -/

theorem assocGet_set_self {κ α : Type} [DecidableEq κ] (d : List (κ × α)) (k : κ) (v : α) :
    assocGet (assocSet d k v) k = some v := by
  induction d with
  | nil => simp [assocSet, assocGet]
  | cons p rest ih =>
    by_cases h : p.1 = k
    · simp [assocSet, h, assocGet]
    · simp [assocSet, h, assocGet, ih]

theorem assocGet_set_ne {κ α : Type} [DecidableEq κ] (d : List (κ × α)) (k k' : κ) (v : α)
    (h : k' ≠ k) : assocGet (assocSet d k v) k' = assocGet d k' := by
  have hkk : ¬ (k = k') := fun he => h he.symm
  induction d with
  | nil => simp [assocSet, assocGet, hkk]
  | cons p rest ih =>
    by_cases hp : p.1 = k
    · subst hp
      simp [assocSet, assocGet, hkk]
    · simp only [assocSet, if_neg hp, assocGet, ih]

theorem isSome_assocGet_set {κ α : Type} [DecidableEq κ] (d : List (κ × α)) (k k' : κ) (v : α)
    (h : (assocGet d k').isSome) : (assocGet (assocSet d k v) k').isSome := by
  by_cases hk : k' = k
  · subst hk
    simp [assocGet_set_self]
  · rwa [assocGet_set_ne d k k' v hk]

theorem hasKey_cons {κ α : Type} [DecidableEq κ] (p : κ × α) (rest : List (κ × α)) (k : κ)
    (h : hasKey (p :: rest) k = false) : p.1 ≠ k ∧ hasKey rest k = false := by
  by_cases hp : p.1 = k
  · simp [hasKey, assocGet, hp] at h
  · simpa [hasKey, assocGet, hp] using h

theorem odUpdate_get_of_not_has (d kvs : Dict) (k : String) (h : hasKey kvs k = false) :
    assocGet (odUpdate d kvs) k = assocGet d k := by
  induction kvs generalizing d with
  | nil => rfl
  | cons p rest ih =>
    obtain ⟨hp, hrest⟩ := hasKey_cons p rest k h
    have hstep : odUpdate d (p :: rest) = odUpdate (assocSet d p.1 p.2) rest := by
      simp [odUpdate]
    rw [hstep, ih _ hrest, assocGet_set_ne _ _ _ _ (fun he => hp he.symm)]

/-! ## Lemmas about the type-mapping loop -/

/-- An alternative whose loop iteration assigns to the descriptor's
`type` entry. -/
def effectiveAlt : AvroType → Bool
  | AvroType.complex kind _ => kind == "enum"
  | AvroType.scalar tag => (type_map tag).isSome

/-- An enum alternative. -/
def isEnumAlt : AvroType → Bool
  | AvroType.complex kind _ => kind == "enum"
  | AvroType.scalar _ => false

theorem addTypeStep_skip (d : Dict) (t : AvroType) (h : effectiveAlt t = false) :
    addTypeStep d t = d := by
  cases t with
  | complex kind syms =>
    have h2 : ¬ (kind = "enum") := by simpa [effectiveAlt] using h
    simp [addTypeStep, h2]
  | scalar tag =>
    cases htm : type_map tag with
    | none => simp [addTypeStep, htm]
    | some m => simp [effectiveAlt, htm] at h

theorem foldl_addTypeStep_skip (l : List AvroType) (d : Dict)
    (h : ∀ t ∈ l, effectiveAlt t = false) : l.foldl addTypeStep d = d := by
  induction l generalizing d with
  | nil => rfl
  | cons t rest ih =>
    rw [List.foldl_cons, addTypeStep_skip d t (h t (List.mem_cons_self t rest)),
      ih d (fun x hx => h x (List.mem_cons_of_mem t hx))]

theorem addTypeStep_get_constraints (d : Dict) (t : AvroType) (h : isEnumAlt t = false) :
    assocGet (addTypeStep d t) "constraints" = assocGet d "constraints" := by
  cases t with
  | complex kind syms =>
    have h2 : ¬ (kind = "enum") := by simpa [isEnumAlt] using h
    simp [addTypeStep, h2]
  | scalar tag =>
    simp only [addTypeStep]
    cases htm : type_map tag with
    | none => rfl
    | some m => exact assocGet_set_ne d "type" "constraints" (JSON.str m) (by decide)

theorem foldl_addTypeStep_get_constraints (l : List AvroType) (d : Dict)
    (h : ∀ t ∈ l, isEnumAlt t = false) :
    assocGet (l.foldl addTypeStep d) "constraints" = assocGet d "constraints" := by
  induction l generalizing d with
  | nil => rfl
  | cons t rest ih =>
    rw [List.foldl_cons, ih _ (fun x hx => h x (List.mem_cons_of_mem t hx)),
      addTypeStep_get_constraints d t (h t (List.mem_cons_self t rest))]

theorem addTypeStep_get_other (d : Dict) (t : AvroType) (k : String)
    (h1 : k ≠ "type") (h2 : k ≠ "constraints") :
    assocGet (addTypeStep d t) k = assocGet d k := by
  cases t with
  | complex kind syms =>
    simp only [addTypeStep]
    by_cases hk : kind = "enum"
    · rw [if_pos hk, assocGet_set_ne _ _ _ _ h2, assocGet_set_ne _ _ _ _ h1]
    · rw [if_neg hk]
  | scalar tag =>
    simp only [addTypeStep]
    cases htm : type_map tag with
    | none => rfl
    | some m => exact assocGet_set_ne d "type" k (JSON.str m) h1

theorem foldl_addTypeStep_get_other (l : List AvroType) (d : Dict) (k : String)
    (h1 : k ≠ "type") (h2 : k ≠ "constraints") :
    assocGet (l.foldl addTypeStep d) k = assocGet d k := by
  induction l generalizing d with
  | nil => rfl
  | cons t rest ih =>
    rw [List.foldl_cons, ih _, addTypeStep_get_other d t k h1 h2]


/-! ## C1 -/

/-- C1 counterexample: in the field descriptor built for a field whose type
alternatives are an enum followed by the scalar tag "long", the scalar
overwrites the enum assignment, so `type` is "integer", not "string" — the
enum does not take precedence over a scalar that follows it. -/
theorem C1_counterexample :
    assocGet (_field_descriptor ⟨"f", [AvroType.complex "enum" ["A", "B"],
        AvroType.scalar "long"]⟩ none) "type" = some (JSON.str "integer")
    ∧ assocGet (_field_descriptor ⟨"f", [AvroType.complex "enum" ["A", "B"],
        AvroType.scalar "long"]⟩ none) "type" ≠ some (JSON.str "string") := by
  refine ⟨rfl, fun h => ?_⟩
  have h2 : (some (JSON.str "integer") : Option JSON) = some (JSON.str "string") :=
    (rfl : assocGet (_field_descriptor ⟨"f", [AvroType.complex "enum" ["A", "B"],
        AvroType.scalar "long"]⟩ none) "type" = some (JSON.str "integer")).symm.trans h
  simp at h2

/-- C1 (amended): each scalar tag string / float / long / boolean maps to
descriptor type string / number / integer / boolean; the `type` entry is
set by the last effective alternative, so an enum yields `type` "string"
only when no mappable scalar follows it, while `constraints.enum` equals the
last enum's symbol set whatever scalars follow. -/
theorem C1_type_assignment :
    (∀ fname : String,
      assocGet (_field_descriptor ⟨fname, [AvroType.scalar "string"]⟩ none) "type"
          = some (JSON.str "string")
      ∧ assocGet (_field_descriptor ⟨fname, [AvroType.scalar "float"]⟩ none) "type"
          = some (JSON.str "number")
      ∧ assocGet (_field_descriptor ⟨fname, [AvroType.scalar "long"]⟩ none) "type"
          = some (JSON.str "integer")
      ∧ assocGet (_field_descriptor ⟨fname, [AvroType.scalar "boolean"]⟩ none) "type"
          = some (JSON.str "boolean"))
    ∧ (∀ (fname : String) (pre post : List AvroType) (syms : List String),
        (∀ t ∈ post, effectiveAlt t = false) →
        assocGet (_field_descriptor
            ⟨fname, pre ++ AvroType.complex "enum" syms :: post⟩ none) "type"
          = some (JSON.str "string"))
    ∧ (∀ (fname : String) (pre post : List AvroType) (tag m : String),
        type_map tag = some m → (∀ t ∈ post, effectiveAlt t = false) →
        assocGet (_field_descriptor
            ⟨fname, pre ++ AvroType.scalar tag :: post⟩ none) "type"
          = some (JSON.str m))
    ∧ (∀ (fname : String) (pre post : List AvroType) (syms : List String),
        (∀ t ∈ post, isEnumAlt t = false) →
        assocGet (_field_descriptor
            ⟨fname, pre ++ AvroType.complex "enum" syms :: post⟩ none) "constraints"
          = some (JSON.obj [("enum", JSON.arr (syms.map JSON.str))])) := by
  refine ⟨fun fname => ⟨rfl, rfl, rfl, rfl⟩, ?_, ?_, ?_⟩
  · intro fname pre post syms hpost
    show assocGet ((pre ++ AvroType.complex "enum" syms :: post).foldl addTypeStep
        [("name", JSON.str fname)]) "type" = some (JSON.str "string")
    rw [List.foldl_append, List.foldl_cons, foldl_addTypeStep_skip post _ hpost]
    show assocGet (assocSet (assocSet _ "type" (JSON.str "string")) "constraints" _) "type"
      = some (JSON.str "string")
    rw [assocGet_set_ne _ _ _ _ (by decide), assocGet_set_self]
  · intro fname pre post tag m htag hpost
    show assocGet ((pre ++ AvroType.scalar tag :: post).foldl addTypeStep
        [("name", JSON.str fname)]) "type" = some (JSON.str m)
    rw [List.foldl_append, List.foldl_cons, foldl_addTypeStep_skip post _ hpost]
    show assocGet (addTypeStep _ (AvroType.scalar tag)) "type" = some (JSON.str m)
    simp only [addTypeStep, htag]
    exact assocGet_set_self _ _ _
  · intro fname pre post syms hpost
    show assocGet ((pre ++ AvroType.complex "enum" syms :: post).foldl addTypeStep
        [("name", JSON.str fname)]) "constraints"
      = some (JSON.obj [("enum", JSON.arr (syms.map JSON.str))])
    rw [List.foldl_append, List.foldl_cons, foldl_addTypeStep_get_constraints post _ hpost]
    show assocGet (assocSet (assocSet _ "type" (JSON.str "string")) "constraints" _) "constraints"
      = some (JSON.obj [("enum", JSON.arr (syms.map JSON.str))])
    exact assocGet_set_self _ _ _

/-- Witness for C1: the amended theorem applied at a concrete field whose
alternatives are "null" then "long" then an enum (the enum being last and
effective, the descriptor type is "string" with the enum constraint). -/
theorem C1_type_assignment_witness :
    assocGet (_field_descriptor ⟨"f", [AvroType.scalar "null", AvroType.scalar "long",
        AvroType.complex "enum" ["X"]]⟩ none) "type" = some (JSON.str "string")
    ∧ assocGet (_field_descriptor ⟨"f", [AvroType.scalar "null", AvroType.scalar "long",
        AvroType.complex "enum" ["X"]]⟩ none) "constraints"
      = some (JSON.obj [("enum", JSON.arr [JSON.str "X"])]) :=
  ⟨C1_type_assignment.2.1 "f" [AvroType.scalar "null", AvroType.scalar "long"] [] ["X"]
      (by intro t ht; simp at ht),
   C1_type_assignment.2.2.2 "f" [AvroType.scalar "null", AvroType.scalar "long"] [] ["X"]
      (by intro t ht; simp at ht)⟩


/-! ## C3 -/

/-- C3 counterexample: a matching `FieldMeta` whose extra annotations bind
the key "type" overrides the descriptor's `type` entry on merge ("oops"
instead of the "string" the unmerged descriptor carries), so the merge does
not always leave `type` unchanged. -/
theorem C3_counterexample :
    assocGet (_field_descriptor ⟨"f", [AvroType.scalar "string"]⟩
        (some ⟨"f", none, [("type", JSON.str "oops")]⟩)) "type" = some (JSON.str "oops")
    ∧ assocGet (_field_descriptor ⟨"f", [AvroType.scalar "string"]⟩ none) "type"
        = some (JSON.str "string")
    ∧ (JSON.str "oops" : JSON) ≠ JSON.str "string" := by
  refine ⟨rfl, rfl, fun h => ?_⟩
  simp at h

/-- C3 (amended): for every `SourceField` and matching `FieldMeta`, the
merge only adds `ontology_reference` and spreads the meta's extra
annotations; it leaves the descriptor's `name` and `type` entries unchanged
provided the extra annotations bind neither "name" nor "type". -/
theorem C3_meta_merge_preserves (field : SourceField) (m : FieldMeta)
    (hn : hasKey m.values "name" = false) (ht : hasKey m.values "type" = false) :
    assocGet (_field_descriptor field (some m)) "name"
        = assocGet (_field_descriptor field none) "name"
    ∧ assocGet (_field_descriptor field (some m)) "type"
        = assocGet (_field_descriptor field none) "type" := by
  simp only [_field_descriptor]
  by_cases hm : m.name = field.name
  · rw [if_pos hm]
    by_cases hor : truthyStr m.ontology_reference = true
    · rw [if_pos hor]
      by_cases hv : m.values.isEmpty
      · rw [if_pos hv]
        constructor
        · exact assocGet_set_ne _ _ _ _ (by decide)
        · exact assocGet_set_ne _ _ _ _ (by decide)
      · rw [if_neg hv]
        constructor
        · rw [odUpdate_get_of_not_has _ _ _ hn]
          exact assocGet_set_ne _ _ _ _ (by decide)
        · rw [odUpdate_get_of_not_has _ _ _ ht]
          exact assocGet_set_ne _ _ _ _ (by decide)
    · rw [if_neg hor]
      by_cases hv : m.values.isEmpty
      · rw [if_pos hv]
        exact ⟨rfl, rfl⟩
      · rw [if_neg hv]
        exact ⟨odUpdate_get_of_not_has _ _ _ hn, odUpdate_get_of_not_has _ _ _ ht⟩
  · rw [if_neg hm]
    exact ⟨rfl, rfl⟩

/-- Witness for C3: the amended theorem applied to a concrete field and a
matching meta carrying an ontology reference and one extra annotation. -/
theorem C3_meta_merge_preserves_witness :
    assocGet (_field_descriptor ⟨"f", [AvroType.scalar "long"]⟩
        (some ⟨"f", some "ONT:1", [("note", JSON.str "x")]⟩)) "name"
      = assocGet (_field_descriptor ⟨"f", [AvroType.scalar "long"]⟩ none) "name"
    ∧ assocGet (_field_descriptor ⟨"f", [AvroType.scalar "long"]⟩
        (some ⟨"f", some "ONT:1", [("note", JSON.str "x")]⟩)) "type"
      = assocGet (_field_descriptor ⟨"f", [AvroType.scalar "long"]⟩ none) "type" :=
  C3_meta_merge_preserves ⟨"f", [AvroType.scalar "long"]⟩
    ⟨"f", some "ONT:1", [("note", JSON.str "x")]⟩ (by decide) (by decide)


/-! ## Lemmas about the schema pipeline -/

theorem add_foreign_keys_foreignKeys (s : Dict) (links : List Link) :
    assocGet (_add_foreign_keys s links) "foreignKeys"
      = some (JSON.arr (links.map foreignKeyOf)) := by
  simp only [_add_foreign_keys]
  exact assocGet_set_self _ _ _

theorem add_foreign_keys_fields (s : Dict) (links : List Link) (fs : List JSON)
    (h : assocGet s "fields" = some (JSON.arr fs)) :
    assocGet (_add_foreign_keys s links) "fields"
      = some (JSON.arr (fs ++ links.map (fun l => JSON.obj [("name", JSON.str l.name)]))) := by
  simp only [_add_foreign_keys, h]
  rw [assocGet_set_ne _ _ _ _ (show ("fields" : String) ≠ "foreignKeys" by decide)]
  exact assocGet_set_self _ _ _

theorem add_foreign_keys_get_other (s : Dict) (links : List Link) (k : String)
    (h1 : k ≠ "fields") (h2 : k ≠ "foreignKeys") :
    assocGet (_add_foreign_keys s links) k = assocGet s k := by
  simp only [_add_foreign_keys]
  rw [assocGet_set_ne _ _ _ _ h2]
  split
  · exact assocGet_set_ne _ _ _ _ h1
  · rfl

theorem ite_odUpdate_get (c : Prop) [Decidable c] (s kvs : Dict) (k : String)
    (h : hasKey kvs k = false) :
    assocGet (if c then s else odUpdate s kvs) k = assocGet s k := by
  split
  · rfl
  · exact odUpdate_get_of_not_has s kvs k h

theorem ite_set_get (c : Prop) [Decidable c] (s : Dict) (k' : String) (v : JSON) (k : String)
    (h : k ≠ k') :
    assocGet (if c then assocSet s k' v else s) k = assocGet s k := by
  split
  · exact assocGet_set_ne s k' k v h
  · rfl

theorem ite_addfk_get (c : Prop) [Decidable c] (s : Dict) (links : List Link) (k : String)
    (h1 : k ≠ "fields") (h2 : k ≠ "foreignKeys") :
    assocGet (if c then s else _add_foreign_keys s links) k = assocGet s k := by
  split
  · rfl
  · exact add_foreign_keys_get_other s links k h1 h2

theorem get_schema_get_primaryKey (node : NodeSchema) (meta : NodeMetadata)
    (hpk : hasKey meta.values "primaryKey" = false) :
    assocGet (_get_schema node meta) "primaryKey"
      = (if submitterCheck (builtFields node meta)
         then some (JSON.str "submitter_id") else none) := by
  simp only [_get_schema]
  rw [ite_odUpdate_get _ _ _ _ hpk,
    ite_set_get _ _ _ _ _ (show ("primaryKey" : String) ≠ "ontology_reference" by decide),
    ite_addfk_get _ _ _ _ (show ("primaryKey" : String) ≠ "fields" by decide)
      (show ("primaryKey" : String) ≠ "foreignKeys" by decide)]
  split
  · exact assocGet_set_self _ _ _
  · rfl

theorem get_schema_get_foreignKeys (node : NodeSchema) (meta : NodeMetadata)
    (hl : meta.links ≠ []) (hfk : hasKey meta.values "foreignKeys" = false) :
    assocGet (_get_schema node meta) "foreignKeys"
      = some (JSON.arr (meta.links.map foreignKeyOf)) := by
  simp only [_get_schema]
  have hle : ¬ (meta.links.isEmpty = true) := by simpa using hl
  rw [ite_odUpdate_get _ _ _ _ hfk,
    ite_set_get _ _ _ _ _ (show ("foreignKeys" : String) ≠ "ontology_reference" by decide),
    if_neg hle]
  exact add_foreign_keys_foreignKeys _ _

theorem get_schema_get_fields_of_links (node : NodeSchema) (meta : NodeMetadata)
    (hl : meta.links ≠ []) (hf : hasKey meta.values "fields" = false) :
    assocGet (_get_schema node meta) "fields"
      = some (JSON.arr ((builtFields node meta).map JSON.obj
          ++ meta.links.map (fun l => JSON.obj [("name", JSON.str l.name)]))) := by
  simp only [_get_schema]
  have hle : ¬ (meta.links.isEmpty = true) := by simpa using hl
  rw [ite_odUpdate_get _ _ _ _ hf,
    ite_set_get _ _ _ _ _ (show ("fields" : String) ≠ "ontology_reference" by decide),
    if_neg hle]
  refine add_foreign_keys_fields _ _ _ ?_
  split
  · rw [assocGet_set_ne _ _ _ _ (show ("fields" : String) ≠ "primaryKey" by decide)]
    rfl
  · rfl

theorem submitterMatch_iff (f : Dict) :
    (match assocGet f "name" with
     | some (JSON.str s) => s == "submitter_id"
     | _ => false) = true
    ↔ assocGet f "name" = some (JSON.str "submitter_id") := by
  cases hn : assocGet f "name" with
  | none => simp
  | some v => cases v <;> simp

theorem submitterCheck_iff (fields : List Dict) :
    submitterCheck fields = true
      ↔ ∃ f ∈ fields, assocGet f "name" = some (JSON.str "submitter_id") := by
  simp only [submitterCheck, List.any_eq_true]
  constructor
  · rintro ⟨f, hf, hm⟩
    exact ⟨f, hf, (submitterMatch_iff f).mp hm⟩
  · rintro ⟨f, hf, hm⟩
    exact ⟨f, hf, (submitterMatch_iff f).mpr hm⟩


/-! ## C8 -/

/-- C8 counterexample: a node with no declared fields and one link named
"submitter_id".  The built table schema's `fields` list contains a field
literally named "submitter_id" (the link field), yet `primaryKey` is not
set, because the check runs before link fields are appended. -/
theorem C8_counterexample :
    assocGet (_get_schema ⟨"n", []⟩ ⟨"n", [], [⟨"submitter_id", "other"⟩], none, []⟩)
        "fields" = some (JSON.arr [JSON.obj [("name", JSON.str "submitter_id")]])
    ∧ assocGet (_get_schema ⟨"n", []⟩ ⟨"n", [], [⟨"submitter_id", "other"⟩], none, []⟩)
        "primaryKey" = none := ⟨rfl, rfl⟩

/-- C8 (amended): provided the node metadata's extra annotations do not bind
"primaryKey", the built table schema sets `primaryKey` to "submitter_id" if
and only if a descriptor named "submitter_id" occurs among the descriptors
built from the node's declared fields — link-appended fields are not
consulted by the check. -/
theorem C8_primaryKey_iff (node : NodeSchema) (meta : NodeMetadata)
    (hpk : hasKey meta.values "primaryKey" = false) :
    assocGet (_get_schema node meta) "primaryKey" = some (JSON.str "submitter_id")
      ↔ ∃ f ∈ builtFields node meta,
          assocGet f "name" = some (JSON.str "submitter_id") := by
  rw [get_schema_get_primaryKey node meta hpk]
  constructor
  · intro h
    split at h
    case isTrue hc => exact (submitterCheck_iff _).mp hc
    case isFalse hc => exact absurd h (by simp)
  · intro h
    rw [if_pos ((submitterCheck_iff _).mpr h)]

/-- Witness for C8: the amended theorem applied to a concrete node with a
declared "submitter_id" field shows the primary key is set. -/
theorem C8_primaryKey_iff_witness :
    assocGet (_get_schema ⟨"n", [⟨"submitter_id", [AvroType.scalar "string"]⟩]⟩
        ⟨"n", [], [], none, []⟩) "primaryKey" = some (JSON.str "submitter_id") :=
  (C8_primaryKey_iff ⟨"n", [⟨"submitter_id", [AvroType.scalar "string"]⟩]⟩
      ⟨"n", [], [], none, []⟩ (by decide)).mpr
    ⟨[("name", JSON.str "submitter_id"), ("type", JSON.str "string")],
      List.mem_singleton_self _, rfl⟩

/-! ## C9 -/

/-- C9 counterexample: node metadata with one link whose extra annotations
bind "foreignKeys" to an empty list.  The final table schema carries zero
foreign keys for one link, because `schema.update(meta['values'])` runs
last and overwrites the constructed `foreignKeys` entry. -/
theorem C9_counterexample :
    assocGet (_get_schema ⟨"n", []⟩ ⟨"n", [], [⟨"s", "t"⟩], none,
        [("foreignKeys", JSON.arr [])]⟩) "foreignKeys" = some (JSON.arr [])
    ∧ ((⟨"n", [], [⟨"s", "t"⟩], none, [("foreignKeys", JSON.arr [])]⟩ :
        NodeMetadata)).links.length = 1
    ∧ (JSON.arr [] : JSON)
        ≠ JSON.arr (((⟨"n", [], [⟨"s", "t"⟩], none,
            [("foreignKeys", JSON.arr [])]⟩ : NodeMetadata)).links.map foreignKeyOf) := by
  refine ⟨rfl, rfl, fun h => ?_⟩
  simp [foreignKeyOf] at h

/-- C9 (amended): for every node with non-empty links, provided the node
metadata's extra annotations bind neither "fields" nor "foreignKeys", the
built table schema's `fields` list is the declared descriptors followed by
exactly one untyped descriptor per link (in links order), and `foreignKeys`
holds exactly one entry per link of the shape
`{fields: link.name, reference: {resource: link.dst, fields: "submitter_id"}}`. -/
theorem C9_links_append (node : NodeSchema) (meta : NodeMetadata)
    (hl : meta.links ≠ []) (hf : hasKey meta.values "fields" = false)
    (hfk : hasKey meta.values "foreignKeys" = false) :
    assocGet (_get_schema node meta) "fields"
      = some (JSON.arr ((builtFields node meta).map JSON.obj
          ++ meta.links.map (fun l => JSON.obj [("name", JSON.str l.name)])))
    ∧ assocGet (_get_schema node meta) "foreignKeys"
      = some (JSON.arr (meta.links.map foreignKeyOf)) :=
  ⟨get_schema_get_fields_of_links node meta hl hf,
   get_schema_get_foreignKeys node meta hl hfk⟩

/-- Witness for C9: the amended theorem applied to a concrete node with one
declared field and two links. -/
theorem C9_links_append_witness :
    assocGet (_get_schema ⟨"n", [⟨"a", [AvroType.scalar "string"]⟩]⟩
        ⟨"n", [], [⟨"b_id", "b"⟩, ⟨"c_id", "c"⟩], none, []⟩) "fields"
      = some (JSON.arr [JSON.obj [("name", JSON.str "a"), ("type", JSON.str "string")],
          JSON.obj [("name", JSON.str "b_id")], JSON.obj [("name", JSON.str "c_id")]])
    ∧ assocGet (_get_schema ⟨"n", [⟨"a", [AvroType.scalar "string"]⟩]⟩
        ⟨"n", [], [⟨"b_id", "b"⟩, ⟨"c_id", "c"⟩], none, []⟩) "foreignKeys"
      = some (JSON.arr [foreignKeyOf ⟨"b_id", "b"⟩, foreignKeyOf ⟨"c_id", "c"⟩]) :=
  C9_links_append ⟨"n", [⟨"a", [AvroType.scalar "string"]⟩]⟩
    ⟨"n", [], [⟨"b_id", "b"⟩, ⟨"c_id", "c"⟩], none, []⟩
    (by simp) (by decide) (by decide)


/-! ## Relation-resolution lemmas -/

theorem filter_dst_eq_singleton (rels : List Relation) (e : Relation)
    (hnd : (rels.map Relation.dst_name).Nodup) (he : e ∈ rels) :
    rels.filter (fun r => r.dst_name = e.dst_name) = [e] := by
  induction rels with
  | nil => cases he
  | cons r rest ih =>
    rw [List.map_cons, List.nodup_cons] at hnd
    obtain ⟨hnotin, hndrest⟩ := hnd
    rcases List.mem_cons.mp he with he1 | he2
    · subst he1
      rw [List.filter_cons_of_pos (by simp)]
      have hnil : rest.filter (fun r => r.dst_name = e.dst_name) = [] := by
        rw [List.filter_eq_nil_iff]
        intro x hx
        simp only [decide_eq_true_eq]
        intro hEq
        exact hnotin (hEq ▸ List.mem_map_of_mem Relation.dst_name hx)
      rw [hnil]
    · have hne : ¬ (r.dst_name = e.dst_name) := by
        intro hEq
        exact hnotin (hEq ▸ List.mem_map_of_mem Relation.dst_name he2)
      rw [List.filter_cons_of_neg (by simpa using hne)]
      exact ih hndrest he2

theorem relationLookup_eq_of_mem (rels : List Relation) (e : Relation)
    (hnd : (rels.map Relation.dst_name).Nodup) (he : e ∈ rels) :
    relationLookup rels e.dst_name = some e.dst_id := by
  simp only [relationLookup, filter_dst_eq_singleton rels e hnd he]
  rfl

theorem relationLookup_eq_none (rels : List Relation) (n : String)
    (h : ∀ e ∈ rels, e.dst_name ≠ n) : relationLookup rels n = none := by
  have hnil : rels.filter (fun r => r.dst_name = n) = [] := by
    rw [List.filter_eq_nil_iff]
    intro x hx
    simpa using h x hx
  simp [relationLookup, hnil]

theorem resolveFKList_links (rels : List Relation) (links : List Link) (d : Dict) :
    resolveFKList rels (links.map foreignKeyOf) d
      = Except.ok (links.foldl (fun d2 l =>
          assocSet d2 l.name ((relationLookup rels l.dst).getD JSON.null)) d) := by
  induction links generalizing d with
  | nil => rfl
  | cons l rest ih =>
    show resolveFKList rels (rest.map foreignKeyOf)
        (assocSet d l.name ((relationLookup rels l.dst).getD JSON.null)) = _
    rw [List.foldl_cons]
    exact ih _

theorem foldl_fk_assign_get_other (links : List Link) (rels : List Relation) (d : Dict)
    (k : String) (h : ∀ x ∈ links, x.name ≠ k) :
    assocGet (links.foldl (fun d2 l =>
        assocSet d2 l.name ((relationLookup rels l.dst).getD JSON.null)) d) k
      = assocGet d k := by
  induction links generalizing d with
  | nil => rfl
  | cons x rest ih =>
    rw [List.foldl_cons, ih _ (fun y hy => h y (List.mem_cons_of_mem x hy))]
    exact assocGet_set_ne _ _ _ _
      (fun he => (h x (List.mem_cons_self x rest)) he.symm)

theorem foldl_fk_assign_get (links : List Link) (rels : List Relation) (d : Dict)
    (l : Link) (hmem : l ∈ links) (hnd : (links.map Link.name).Nodup) :
    assocGet (links.foldl (fun d2 l2 =>
        assocSet d2 l2.name ((relationLookup rels l2.dst).getD JSON.null)) d) l.name
      = some ((relationLookup rels l.dst).getD JSON.null) := by
  induction links generalizing d with
  | nil => cases hmem
  | cons x rest ih =>
    rw [List.map_cons, List.nodup_cons] at hnd
    obtain ⟨hx, hndrest⟩ := hnd
    rcases List.mem_cons.mp hmem with h1 | h2
    · subst h1
      rw [List.foldl_cons,
        foldl_fk_assign_get_other rest rels _ l.name
          (fun y hy hEq => hx (hEq ▸ List.mem_map_of_mem Link.name hy))]
      exact assocGet_set_self _ _ _
    · rw [List.foldl_cons]
      exact ih _ h2 hndrest

/-! ## C7 -/

/-- C7: for every record and every link-derived foreign key of its node's
schema (under the data-model assumptions that link names and relation
destination names are duplicate-free and the node-level extra annotations do
not rebind "foreignKeys"), foreign-key resolution succeeds without error;
the resolved row value under the foreign key's field name equals the
matching relation's `dst_id` when one is present, and is `None` — rendered
as the empty cell — when no relation matches. -/
theorem C7_relation_resolution (node : NodeSchema) (meta : NodeMetadata) (r : PFBRecord)
    (hl : meta.links ≠ []) (hfk : hasKey meta.values "foreignKeys" = false)
    (hnames : (meta.links.map Link.name).Nodup)
    (hrels : (r.relations.map Relation.dst_name).Nodup)
    (l : Link) (hmem : l ∈ meta.links) :
    ∃ d, resolveForeignKeys (_get_schema node meta) r.object r.relations = Except.ok d
      ∧ (∀ e ∈ r.relations, e.dst_name = l.dst → assocGet d l.name = some e.dst_id)
      ∧ ((∀ e ∈ r.relations, e.dst_name ≠ l.dst) →
            assocGet d l.name = some JSON.null ∧ jsonCell JSON.null = "") := by
  refine ⟨meta.links.foldl (fun d2 l2 =>
      assocSet d2 l2.name ((relationLookup r.relations l2.dst).getD JSON.null)) r.object,
    ?_, ?_, ?_⟩
  · simp only [resolveForeignKeys, get_schema_get_foreignKeys node meta hl hfk]
    exact resolveFKList_links r.relations meta.links r.object
  · intro e he hEq
    rw [foldl_fk_assign_get meta.links r.relations r.object l hmem hnames, ← hEq,
      relationLookup_eq_of_mem r.relations e hrels he]
    rfl
  · intro habs
    rw [foldl_fk_assign_get meta.links r.relations r.object l hmem hnames,
      relationLookup_eq_none r.relations l.dst habs]
    exact ⟨rfl, rfl⟩

/-- Witness for C7: a concrete case node with one link to "sample"; the
record carries a matching relation with id "S1", resolution succeeds, and
the resolved value under "sample_id" is "S1". -/
theorem C7_relation_resolution_witness :
    resolveForeignKeys
        (_get_schema ⟨"case", [⟨"submitter_id", [AvroType.scalar "string"]⟩]⟩
          ⟨"case", [], [⟨"sample_id", "sample"⟩], none, []⟩)
        [("submitter_id", JSON.str "C1")] [⟨"sample", JSON.str "S1"⟩]
      = Except.ok [("submitter_id", JSON.str "C1"), ("sample_id", JSON.str "S1")]
    ∧ assocGet [("submitter_id", JSON.str "C1"), ("sample_id", JSON.str "S1")] "sample_id"
      = some (JSON.str "S1") := by
  obtain ⟨d, h1, h2, h3⟩ :=
    C7_relation_resolution ⟨"case", [⟨"submitter_id", [AvroType.scalar "string"]⟩]⟩
      ⟨"case", [], [⟨"sample_id", "sample"⟩], none, []⟩
      ⟨"case", [("submitter_id", JSON.str "C1")], [⟨"sample", JSON.str "S1"⟩]⟩
      (by simp) (by decide) (by decide) (by decide) ⟨"sample_id", "sample"⟩ (by decide)
  have hv := h2 ⟨"sample", JSON.str "S1"⟩ (List.mem_singleton_self _) rfl
  have hc : resolveForeignKeys
      (_get_schema ⟨"case", [⟨"submitter_id", [AvroType.scalar "string"]⟩]⟩
        ⟨"case", [], [⟨"sample_id", "sample"⟩], none, []⟩)
      [("submitter_id", JSON.str "C1")] [⟨"sample", JSON.str "S1"⟩]
      = Except.ok [("submitter_id", JSON.str "C1"), ("sample_id", JSON.str "S1")] := rfl
  have hd := hc.symm.trans h1
  injection hd with hd2
  rw [← hd2] at hv
  exact ⟨hc, hv⟩


/-! ## C2 -/

/-- The node schema of the C2 scenario. -/
def subjectNode : NodeSchema :=
  ⟨"subject", [⟨"submitter_id", [AvroType.scalar "string"]⟩,
               ⟨"age", [AvroType.scalar "long"]⟩]⟩

/-- The node metadata of the C2 scenario. -/
def subjectMeta : NodeMetadata := ⟨"subject", [], [], none, []⟩

/-- The single record of the C2 scenario. -/
def subjectRecord : PFBRecord :=
  ⟨"subject", [("project_id", JSON.str "proj1"), ("submitter_id", JSON.str "A1"),
               ("age", JSON.int 30)], []⟩

/-- C2 counterexample: on the scenario input the run does not produce the
claimed outputs — `proj1/data/subject.tsv` holds only its header row (no
data row "A1\t30") and `proj1/datapackage.json` is never written, because
the record's object carries the key "project_id", which is not among the
schema's field names, and the row writer raises on undeclared keys. -/
theorem C2_counterexample :
    assocGet (runFrictionless [subjectNode] [subjectMeta] [subjectRecord]).1.files
        ["proj1", "data", "subject.tsv"] = some (FileContent.table ["submitter_id\tage"])
    ∧ (FileContent.table ["submitter_id\tage"]
        ≠ FileContent.table ["submitter_id\tage", "A1\t30"])
    ∧ assocGet (runFrictionless [subjectNode] [subjectMeta] [subjectRecord]).1.files
        ["proj1", "datapackage.json"] = none := by
  refine ⟨rfl, fun h => ?_, rfl⟩
  simp at h

/-- C2 (amended): on the scenario input the run aborts with a `ValueError`
(the object key "project_id" is not among the schema's field names).
Before the failure it has written `proj1/data/subject.json` with the
claimed fields and primary key and a header-only `proj1/data/subject.tsv`
with header "submitter_id\tage"; no data row and no `datapackage.json` are
produced. -/
theorem C2_scenario_aborts :
    (runFrictionless [subjectNode] [subjectMeta] [subjectRecord]).2
        = some "ValueError: dict contains fields not in fieldnames"
    ∧ assocGet (runFrictionless [subjectNode] [subjectMeta] [subjectRecord]).1.files
        ["proj1", "data", "subject.tsv"] = some (FileContent.table ["submitter_id\tage"])
    ∧ assocGet (runFrictionless [subjectNode] [subjectMeta] [subjectRecord]).1.files
        ["proj1", "data", "subject.json"]
      = some (FileContent.json (JSON.obj [("fields", JSON.arr
          [JSON.obj [("name", JSON.str "submitter_id"), ("type", JSON.str "string")],
           JSON.obj [("name", JSON.str "age"), ("type", JSON.str "integer")]]),
          ("primaryKey", JSON.str "submitter_id")]))
    ∧ assocGet (runFrictionless [subjectNode] [subjectMeta] [subjectRecord]).1.files
        ["proj1", "datapackage.json"] = none :=
  ⟨rfl, rfl, rfl, rfl⟩

/-! ## C4 -/

/-- The node schema of the C4 failing input: a node name with an uppercase
letter. -/
def sampleNode : NodeSchema := ⟨"Sample", [⟨"project_id", [AvroType.scalar "string"]⟩]⟩

/-- The node metadata of the C4 failing input. -/
def sampleMeta : NodeMetadata := ⟨"Sample", [], [], none, []⟩

/-- The single record of the C4 failing input. -/
def sampleRecord : PFBRecord := ⟨"Sample", [("project_id", JSON.str "P1")], []⟩

/-- C4: for the node named "Sample" the run completes and writes the data
and schema files under the lowercased names `data/sample.tsv` and
`data/sample.json`, but the emitted package descriptor's resource points at
`data/Sample.tsv` and `data/Sample.json` — paths at which no file exists.
The descriptor fails to reference the node's actual on-disk files for any
node name containing an uppercase letter. -/
theorem C4_descriptor_path_mismatch :
    (runFrictionless [sampleNode] [sampleMeta] [sampleRecord]).2 = none
    ∧ (assocGet (runFrictionless [sampleNode] [sampleMeta] [sampleRecord]).1.files
        ["p1", "data", "sample.tsv"]).isSome = true
    ∧ assocGet (runFrictionless [sampleNode] [sampleMeta] [sampleRecord]).1.files
        ["p1", "data", "Sample.tsv"] = none
    ∧ assocGet (runFrictionless [sampleNode] [sampleMeta] [sampleRecord]).1.files
        ["p1", "datapackage.json"]
      = some (FileContent.json (JSON.obj [("name", JSON.str "p1"),
          ("resources", JSON.arr [resourceOf "Sample"])]))
    ∧ resourceOf "Sample"
      = JSON.obj [("profile", JSON.str "tabular-data-resource"),
          ("name", JSON.str "sample"),
          ("path", JSON.str "data/Sample.tsv"),
          ("format", JSON.str "csv"),
          ("mediatype", JSON.str "text/csv"),
          ("encoding", JSON.str "utf-8"),
          ("dialect", JSON.obj [("delimiter", JSON.str "\t")]),
          ("schema", JSON.str "data/Sample.json")] :=
  ⟨rfl, rfl, rfl, rfl, rfl⟩


/-! ## C10 -/

/-- C10: the row writer rejects any row dict carrying a key outside the
field names (the `csv.DictWriter` default extras policy), a successful row
has exactly one cell per field name (undeclared keys are never written as
additional columns), and the error aborts the record loop at the failing
record. -/
theorem C10_extra_keys_fatal :
    (∀ (fieldnames : List String) (rowdict : Dict),
        (∃ p ∈ rowdict, p.1 ∉ fieldnames) →
        dictWriterRow fieldnames rowdict
          = Except.error "ValueError: dict contains fields not in fieldnames")
    ∧ (∀ (fieldnames : List String) (rowdict : Dict) (cells : List String),
        dictWriterRow fieldnames rowdict = Except.ok cells →
        (∀ p ∈ rowdict, p.1 ∈ fieldnames) ∧ cells.length = fieldnames.length)
    ∧ (∀ (schemas : List (String × Dict)) (st st1 : TState) (r : PFBRecord)
        (rs : List PFBRecord) (e : String),
        processRecord schemas st r = (st1, some e) →
        runRecords schemas st (r :: rs) = (st1, some e)) := by
  refine ⟨?_, ?_, ?_⟩
  · intro fns d h
    have hc : d.any (fun p => !(fns.contains p.1)) = true := by
      rw [List.any_eq_true]
      obtain ⟨p, hp, hnotin⟩ := h
      exact ⟨p, hp, by simpa using hnotin⟩
    unfold dictWriterRow
    rw [if_pos hc]
  · intro fns d cells h
    simp only [dictWriterRow] at h
    split at h
    · cases h
    case isFalse hc =>
      have hall : ∀ p ∈ d, p.1 ∈ fns := by
        intro p hp
        rcases List.any_eq_false.mp (Bool.eq_false_iff.mpr hc) p hp with hmem
        simpa using hmem
      cases h
      exact ⟨hall, by simp⟩
  · intro schemas st st1 r rs e h
    simp only [runRecords, h]

/-- Witness for C10: a row dict with undeclared key "b" against field
names ["a"] is rejected. -/
theorem C10_extra_keys_fatal_witness :
    dictWriterRow ["a"] [("a", JSON.int 1), ("b", JSON.int 2)]
      = Except.error "ValueError: dict contains fields not in fieldnames" :=
  C10_extra_keys_fatal.1 ["a"] [("a", JSON.int 1), ("b", JSON.int 2)]
    ⟨("b", JSON.int 2), by simp, by decide⟩


/-! ## Run-state lemmas -/

theorem tsv_ne_json_suffix (a : String) : a ++ ".json" ≠ a ++ ".tsv" := by
  intro h
  have h2 := congrArg String.length h
  rw [String.length_append, String.length_append,
    (show (".json" : String).length = 5 from rfl),
    (show (".tsv" : String).length = 4 from rfl)] at h2
  omega

theorem data_pair_path_ne (pkgdir : FPath) (x y : String) (hne : x ≠ y) :
    pkgdir ++ ["data", x] ≠ pkgdir ++ ["data", y] := by
  induction pkgdir with
  | nil => simp [hne]
  | cons a rest ih => simpa using ih

theorem provisionOne_pkgs (pid : String) (pkgdir : FPath) (tname : String) (sch : Dict)
    (st : TState) : (provisionOne pid pkgdir tname sch st).1.pkgs = st.pkgs := by
  simp only [provisionOne]
  split <;> rfl

theorem provisionOne_files_mono (pid : String) (pkgdir : FPath) (tname : String)
    (sch : Dict) (st : TState) (q : FPath) (h : (assocGet st.files q).isSome) :
    (assocGet (provisionOne pid pkgdir tname sch st).1.files q).isSome := by
  simp only [provisionOne]
  split
  · exact isSome_assocGet_set _ _ _ _ h
  · exact isSome_assocGet_set _ _ _ _ (isSome_assocGet_set _ _ _ _ h)

theorem provisionOne_success_files (pid : String) (pkgdir : FPath) (tname : String)
    (sch : Dict) (st st1 : TState) (h : provisionOne pid pkgdir tname sch st = (st1, none)) :
    (assocGet st1.files (pkgdir ++ ["data", pyLower tname ++ ".tsv"])).isSome
    ∧ (assocGet st1.files (pkgdir ++ ["data", pyLower tname ++ ".json"])).isSome := by
  simp only [provisionOne] at h
  split at h
  · simp at h
  · injection h with h1 h2
    subst h1
    constructor
    · simp only []
      rw [assocGet_set_self]
      rfl
    · simp only []
      rw [assocGet_set_ne _ _ _ _
        (data_pair_path_ne pkgdir _ _ (tsv_ne_json_suffix (pyLower tname))),
        assocGet_set_self]
      rfl

theorem provisionTables_pkgs (pid : String) (pkgdir : FPath)
    (schemas : List (String × Dict)) (st : TState) :
    (provisionTables pid pkgdir schemas st).1.pkgs = st.pkgs := by
  induction schemas generalizing st with
  | nil => rfl
  | cons hd rest ih =>
    obtain ⟨tname, sch⟩ := hd
    simp only [provisionTables]
    cases hp : provisionOne pid pkgdir tname sch st with
    | mk st1 err =>
      have h2 := provisionOne_pkgs pid pkgdir tname sch st
      rw [hp] at h2
      cases err with
      | some e => exact h2
      | none => rw [ih st1]; exact h2

theorem provisionTables_files_mono (pid : String) (pkgdir : FPath)
    (schemas : List (String × Dict)) (st : TState) (q : FPath)
    (h : (assocGet st.files q).isSome) :
    (assocGet (provisionTables pid pkgdir schemas st).1.files q).isSome := by
  induction schemas generalizing st with
  | nil => exact h
  | cons hd rest ih =>
    obtain ⟨tname, sch⟩ := hd
    simp only [provisionTables]
    cases hp : provisionOne pid pkgdir tname sch st with
    | mk st1 err =>
      have hm := provisionOne_files_mono pid pkgdir tname sch st q h
      rw [hp] at hm
      cases err with
      | some e => exact hm
      | none => exact ih st1 hm

theorem provisionTables_success_files (pid : String) (pkgdir : FPath)
    (schemas : List (String × Dict)) (st st1 : TState)
    (h : provisionTables pid pkgdir schemas st = (st1, none)) :
    ∀ p ∈ schemas,
      (assocGet st1.files (pkgdir ++ ["data", pyLower p.1 ++ ".tsv"])).isSome
      ∧ (assocGet st1.files (pkgdir ++ ["data", pyLower p.1 ++ ".json"])).isSome := by
  induction schemas generalizing st with
  | nil => intro p hp; cases hp
  | cons hd rest ih =>
    obtain ⟨tname, sch⟩ := hd
    simp only [provisionTables] at h
    cases hp : provisionOne pid pkgdir tname sch st with
    | mk st2 err =>
      rw [hp] at h
      cases err with
      | some e =>
        replace h : ((st2, some e) : TState × Option String) = (st1, none) := h
        simp at h
      | none =>
        replace h : provisionTables pid pkgdir rest st2 = (st1, none) := h
        intro p hpmem
        rcases List.mem_cons.mp hpmem with h1 | h2
        · subst h1
          obtain ⟨ht, hj⟩ := provisionOne_success_files pid pkgdir tname sch st st2 hp
          have hmt := provisionTables_files_mono pid pkgdir rest st2 _ ht
          have hmj := provisionTables_files_mono pid pkgdir rest st2 _ hj
          rw [h] at hmt hmj
          exact ⟨hmt, hmj⟩
        · exact ih st2 h p h2

theorem appendLine_get_isSome (files : List (FPath × FileContent)) (p : FPath)
    (line : String) (q : FPath) (h : (assocGet files q).isSome) :
    (assocGet (appendLine files p line) q).isSome := by
  simp only [appendLine]
  split
  · exact isSome_assocGet_set _ _ _ _ h
  · exact h


/-- The completeness invariant of the writer state: every discovered
project has a data file and a schema file for every node of the catalog. -/
def filesInv (schemas : List (String × Dict)) (st : TState) : Prop :=
  ∀ pid : String, (assocGet st.pkgs pid).isSome →
    ∀ p ∈ schemas,
      (assocGet st.files [pyLower pid, "data", pyLower p.1 ++ ".tsv"]).isSome
      ∧ (assocGet st.files [pyLower pid, "data", pyLower p.1 ++ ".json"]).isSome

theorem ensureProject_pkgs_mono (schemas : List (String × Dict)) (st : TState)
    (pid q : String) (h : (assocGet st.pkgs q).isSome) :
    (assocGet (ensureProject schemas st pid).1.pkgs q).isSome := by
  simp only [ensureProject]
  split
  · exact h
  · rw [provisionTables_pkgs]
    exact isSome_assocGet_set _ _ _ _ h

theorem ensureProject_success_pid (schemas : List (String × Dict)) (st : TState)
    (pid : String) (st1 : TState) (h : ensureProject schemas st pid = (st1, none)) :
    (assocGet st1.pkgs pid).isSome := by
  cases hx : assocGet st.pkgs pid with
  | some v =>
    simp only [ensureProject, hx] at h
    injection h with h1 h2
    subst h1
    rw [hx]
    rfl
  | none =>
    simp only [ensureProject, hx] at h
    have h2 := provisionTables_pkgs pid [pyLower pid] schemas
      { st with pkgs := assocSet st.pkgs pid [pyLower pid] }
    rw [h] at h2
    have h3 : st1.pkgs = assocSet st.pkgs pid [pyLower pid] := h2
    rw [h3, assocGet_set_self]
    rfl

theorem ensureProject_files_mono (schemas : List (String × Dict)) (st : TState)
    (pid : String) (q : FPath) (h : (assocGet st.files q).isSome) :
    (assocGet (ensureProject schemas st pid).1.files q).isSome := by
  simp only [ensureProject]
  split
  · exact h
  · exact provisionTables_files_mono _ _ _ _ _ h

theorem ensureProject_inv (schemas : List (String × Dict)) (st : TState)
    (pid : String) (st1 : TState) (h : ensureProject schemas st pid = (st1, none))
    (hinv : filesInv schemas st) : filesInv schemas st1 := by
  cases hx : assocGet st.pkgs pid with
  | some v =>
    simp only [ensureProject, hx] at h
    injection h with h1 h2
    subst h1
    exact hinv
  | none =>
    simp only [ensureProject, hx] at h
    intro q hq p hp
    have hpkgs := provisionTables_pkgs pid [pyLower pid] schemas
      { st with pkgs := assocSet st.pkgs pid [pyLower pid] }
    rw [h] at hpkgs
    have h3 : st1.pkgs = assocSet st.pkgs pid [pyLower pid] := hpkgs
    by_cases hqp : q = pid
    · subst hqp
      have hall := provisionTables_success_files q [pyLower q] schemas _ st1 h p hp
      exact hall
    · rw [h3, assocGet_set_ne _ _ _ _ hqp] at hq
      obtain ⟨ht, hj⟩ := hinv q hq p hp
      have hmt := provisionTables_files_mono pid [pyLower pid] schemas
        { st with pkgs := assocSet st.pkgs pid [pyLower pid] } _ ht
      have hmj := provisionTables_files_mono pid [pyLower pid] schemas
        { st with pkgs := assocSet st.pkgs pid [pyLower pid] } _ hj
      rw [h] at hmt hmj
      exact ⟨hmt, hmj⟩


theorem processRecord_success (schemas : List (String × Dict)) (st : TState)
    (r : PFBRecord) (st1 : TState) (h : processRecord schemas st r = (st1, none)) :
    (filesInv schemas st → filesInv schemas st1)
    ∧ (∀ q, (assocGet st.pkgs q).isSome → (assocGet st1.pkgs q).isSome)
    ∧ (∀ pid, assocGet r.object "project_id" = some (JSON.str pid) →
        (assocGet st1.pkgs pid).isSome) := by
  cases hobj : assocGet r.object "project_id" with
  | none =>
    simp only [processRecord, hobj] at h
    simp at h
  | some v =>
    cases v with
    | null => simp only [processRecord, hobj] at h; simp at h
    | bool b => simp only [processRecord, hobj] at h; simp at h
    | int n => simp only [processRecord, hobj] at h; simp at h
    | arr xs => simp only [processRecord, hobj] at h; simp at h
    | obj kvs => simp only [processRecord, hobj] at h; simp at h
    | str pid =>
      simp only [processRecord, hobj] at h
      cases he : ensureProject schemas st pid with
      | mk st2 err =>
        rw [he] at h
        cases err with
        | some e =>
          replace h : ((st2, some e) : TState × Option String) = (st1, none) := h
          simp at h
        | none =>
          replace h : writeRowPhase schemas st2 pid r = (st1, none) := h
          simp only [writeRowPhase] at h
          cases hw : assocGet st2.writers (pid, r.name) with
          | none =>
            rw [hw] at h
            replace h : ((st2, some ("KeyError: " ++ r.name)) : TState × Option String)
              = (st1, none) := h
            simp at h
          | some w =>
            rw [hw] at h
            cases hs : assocGet schemas r.name with
            | none =>
              rw [hs] at h
              replace h : ((st2, some ("KeyError: " ++ r.name)) : TState × Option String)
                = (st1, none) := h
              simp at h
            | some sch =>
              rw [hs] at h
              replace h : (match _write_record w.fieldnames r sch with
                | Except.error e => ((st2, some e) : TState × Option String)
                | Except.ok cells => ({ st2 with
                    files := appendLine st2.files w.path (renderRow cells) }, none))
                = (st1, none) := h
              cases hwr : _write_record w.fieldnames r sch with
              | error e =>
                rw [hwr] at h
                replace h : ((st2, some e) : TState × Option String) = (st1, none) := h
                simp at h
              | ok cells =>
                rw [hwr] at h
                replace h : (({ st2 with
                    files := appendLine st2.files w.path (renderRow cells) } : TState), none)
                  = (st1, none) := h
                injection h with h1 h2
                subst h1
                refine ⟨?_, ?_, ?_⟩
                · intro hinv q hq p hp
                  have hq2 : (assocGet st2.pkgs q).isSome := hq
                  obtain ⟨ht, hj⟩ := ensureProject_inv schemas st pid st2 he hinv q hq2 p hp
                  exact ⟨appendLine_get_isSome _ _ _ _ ht, appendLine_get_isSome _ _ _ _ hj⟩
                · intro q hq
                  have hm := ensureProject_pkgs_mono schemas st pid q hq
                  rw [he] at hm
                  exact hm
                · intro pid2 hpid
                  injection hpid with hinj2
                  injection hinj2 with hinj3
                  subst hinj3
                  exact ensureProject_success_pid schemas st pid st2 he

theorem runRecords_success (schemas : List (String × Dict)) (records : List PFBRecord)
    (st st1 : TState) (h : runRecords schemas st records = (st1, none)) :
    (filesInv schemas st → filesInv schemas st1)
    ∧ (∀ q, (assocGet st.pkgs q).isSome → (assocGet st1.pkgs q).isSome)
    ∧ (∀ r ∈ records, ∀ pid, assocGet r.object "project_id" = some (JSON.str pid) →
        (assocGet st1.pkgs pid).isSome) := by
  induction records generalizing st with
  | nil =>
    simp only [runRecords] at h
    injection h with h1 h2
    subst h1
    exact ⟨fun hi => hi, fun q hq => hq, fun r hr => absurd hr (List.not_mem_nil r)⟩
  | cons r rs ih =>
    simp only [runRecords] at h
    cases hp : processRecord schemas st r with
    | mk st2 err =>
      rw [hp] at h
      cases err with
      | some e =>
        replace h : ((st2, some e) : TState × Option String) = (st1, none) := h
        simp at h
      | none =>
        replace h : runRecords schemas st2 rs = (st1, none) := h
        obtain ⟨i1, i2, i3⟩ := ih st2 h
        obtain ⟨p1, p2, p3⟩ := processRecord_success schemas st r st2 hp
        refine ⟨fun hi => i1 (p1 hi), fun q hq => i2 q (p2 q hq), ?_⟩
        intro r2 hr2 pid hpid
        rcases List.mem_cons.mp hr2 with h1 | h2
        · subst h1
          exact i2 pid (p3 pid hpid)
        · exact i3 r2 h2 pid hpid

theorem writeDescriptors_files_mono (pkgs : List (String × FPath))
    (schemas : List (String × Dict)) (files : List (FPath × FileContent)) (q : FPath)
    (h : (assocGet files q).isSome) :
    (assocGet (writeDescriptors pkgs schemas files) q).isSome := by
  induction pkgs generalizing files with
  | nil => exact h
  | cons p rest ih =>
    have h2 : (assocGet (_write_descriptor p.1 p.2 schemas files) q).isSome :=
      isSome_assocGet_set _ _ _ _ h
    exact ih _ h2


/-! ## C5 -/

/-- C5: on first sight of a project every node of the Schema Catalog gets
its schema file and header-only data file; consequently, whenever the run
completes without error, every project appearing in the record stream has a
`<node>.tsv` and a `<node>.json` file for every node of the catalog — also
for (project, node) pairs that received zero records. -/
theorem C5_every_pair_has_files (schemaList : List NodeSchema)
    (metaNodes : List NodeMetadata) (records : List PFBRecord)
    (schemas : List (String × Dict))
    (hsch : _get_schemas schemaList metaNodes = Except.ok schemas)
    (hok : (runFrictionless schemaList metaNodes records).2 = none)
    (r : PFBRecord) (hr : r ∈ records) (pid : String)
    (hpid : assocGet r.object "project_id" = some (JSON.str pid))
    (p : String × Dict) (hp : p ∈ schemas) :
    (assocGet (runFrictionless schemaList metaNodes records).1.files
        [pyLower pid, "data", pyLower p.1 ++ ".tsv"]).isSome
    ∧ (assocGet (runFrictionless schemaList metaNodes records).1.files
        [pyLower pid, "data", pyLower p.1 ++ ".json"]).isSome := by
  simp only [runFrictionless, hsch] at hok ⊢
  cases hrun : runRecords schemas emptyState records with
  | mk st err =>
    rw [hrun] at hok
    cases err with
    | some e => exact Option.noConfusion (show (some e : Option String) = none from hok)
    | none =>
      obtain ⟨i1, i2, i3⟩ := runRecords_success schemas records emptyState st hrun
      have hinv : filesInv schemas st := by
        refine i1 ?_
        intro q hq p2 hp2
        simp [emptyState, assocGet] at hq
      have hpkg : (assocGet st.pkgs pid).isSome := i3 r hr pid hpid
      obtain ⟨ht, hj⟩ := hinv pid hpkg p hp
      exact ⟨writeDescriptors_files_mono st.pkgs schemas st.files _ ht,
             writeDescriptors_files_mono st.pkgs schemas st.files _ hj⟩

/-- The node schema used by the C5 witness run. -/
def okNode : NodeSchema := ⟨"t", [⟨"project_id", [AvroType.scalar "string"]⟩]⟩

/-- The node metadata used by the C5 witness run. -/
def okMeta : NodeMetadata := ⟨"t", [], [], none, []⟩

/-- The single record of the C5 witness run. -/
def okRecord : PFBRecord := ⟨"t", [("project_id", JSON.str "P")], []⟩

/-- Witness for C5: a concrete one-record run whose project "P" ends up
with both files for the catalog node "t". -/
theorem C5_every_pair_has_files_witness :
    (assocGet (runFrictionless [okNode] [okMeta] [okRecord]).1.files
        ["p", "data", "t.tsv"]).isSome
    ∧ (assocGet (runFrictionless [okNode] [okMeta] [okRecord]).1.files
        ["p", "data", "t.json"]).isSome :=
  C5_every_pair_has_files [okNode] [okMeta] [okRecord]
    [("t", _get_schema okNode okMeta)] rfl rfl okRecord (List.mem_singleton_self _)
    "P" rfl ("t", _get_schema okNode okMeta) (List.mem_singleton_self _)


/-! ## Catalog and error-propagation lemmas -/

theorem get_schemas_aux_error (metaNodes : List NodeMetadata) (sl : List NodeSchema)
    (acc : List (String × Dict))
    (h : ∃ node ∈ sl, node_meta_lookup metaNodes node.name = none) :
    ∃ e, _get_schemas_aux metaNodes acc sl = Except.error e := by
  induction sl generalizing acc with
  | nil =>
    obtain ⟨n, hn, _⟩ := h
    cases hn
  | cons node rest ih =>
    obtain ⟨n, hn, hnone⟩ := h
    cases hm : node_meta_lookup metaNodes node.name with
    | none =>
      exact ⟨"KeyError: no metadata for node " ++ node.name, by simp [_get_schemas_aux, hm]⟩
    | some m =>
      rcases List.mem_cons.mp hn with h1 | h2
      · subst h1
        rw [hm] at hnone
        cases hnone
      · obtain ⟨e, he⟩ := ih (assocSet acc node.name (_get_schema node m)) ⟨n, h2, hnone⟩
        exact ⟨e, by simp [_get_schemas_aux, hm, he]⟩

theorem get_schemas_aux_keys (metaNodes : List NodeMetadata) (sl : List NodeSchema)
    (acc : List (String × Dict)) (schemas : List (String × Dict))
    (h : _get_schemas_aux metaNodes acc sl = Except.ok schemas) (n : String)
    (hn : (assocGet schemas n).isSome) :
    (assocGet acc n).isSome ∨ n ∈ sl.map NodeSchema.name := by
  induction sl generalizing acc with
  | nil =>
    simp only [_get_schemas_aux] at h
    injection h with h1
    subst h1
    exact Or.inl hn
  | cons node rest ih =>
    simp only [_get_schemas_aux] at h
    cases hm : node_meta_lookup metaNodes node.name with
    | none => rw [hm] at h; cases h
    | some m =>
      rw [hm] at h
      rcases ih (assocSet acc node.name (_get_schema node m)) h with hacc | hmem
      · by_cases heq : n = node.name
        · subst heq
          exact Or.inr (List.mem_map_of_mem NodeSchema.name (List.mem_cons_self node rest))
        · rw [assocGet_set_ne _ _ _ _ heq] at hacc
          exact Or.inl hacc
      · exact Or.inr (List.mem_cons_of_mem _ hmem)

theorem get_schemas_keys_none (schemaList : List NodeSchema)
    (metaNodes : List NodeMetadata) (schemas : List (String × Dict))
    (h : _get_schemas schemaList metaNodes = Except.ok schemas) (n : String)
    (hn : n ∉ schemaList.map NodeSchema.name) :
    (assocGet schemas n).isSome = false := by
  cases hb : (assocGet schemas n).isSome with
  | false => rfl
  | true =>
    rcases get_schemas_aux_keys metaNodes schemaList [] schemas h n hb with hacc | hmem
    · simp [assocGet] at hacc
    · exact absurd hmem hn

theorem writeRowPhase_success_name (schemas : List (String × Dict)) (st : TState)
    (pid : String) (r : PFBRecord) (st1 : TState)
    (h : writeRowPhase schemas st pid r = (st1, none)) :
    (assocGet schemas r.name).isSome := by
  simp only [writeRowPhase] at h
  cases hw : assocGet st.writers (pid, r.name) with
  | none =>
    rw [hw] at h
    replace h : ((st, some ("KeyError: " ++ r.name)) : TState × Option String)
      = (st1, none) := h
    simp at h
  | some w =>
    rw [hw] at h
    cases hs : assocGet schemas r.name with
    | none =>
      rw [hs] at h
      replace h : ((st, some ("KeyError: " ++ r.name)) : TState × Option String)
        = (st1, none) := h
      simp at h
    | some sch => rfl

theorem processRecord_success_name (schemas : List (String × Dict)) (st : TState)
    (r : PFBRecord) (st1 : TState) (h : processRecord schemas st r = (st1, none)) :
    (assocGet schemas r.name).isSome := by
  cases hobj : assocGet r.object "project_id" with
  | none => simp only [processRecord, hobj] at h; simp at h
  | some v =>
    cases v with
    | null => simp only [processRecord, hobj] at h; simp at h
    | bool b => simp only [processRecord, hobj] at h; simp at h
    | int n => simp only [processRecord, hobj] at h; simp at h
    | arr xs => simp only [processRecord, hobj] at h; simp at h
    | obj kvs => simp only [processRecord, hobj] at h; simp at h
    | str pid =>
      simp only [processRecord, hobj] at h
      cases he : ensureProject schemas st pid with
      | mk st2 err =>
        rw [he] at h
        cases err with
        | some e =>
          replace h : ((st2, some e) : TState × Option String) = (st1, none) := h
          simp at h
        | none =>
          replace h : writeRowPhase schemas st2 pid r = (st1, none) := h
          exact writeRowPhase_success_name schemas st2 pid r st1 h

theorem runRecords_error_of_bad (schemas : List (String × Dict)) (st : TState)
    (records : List PFBRecord)
    (hbad : ∃ r ∈ records, (assocGet schemas r.name).isSome = false) :
    (runRecords schemas st records).2 ≠ none := by
  induction records generalizing st with
  | nil =>
    obtain ⟨r, hr, _⟩ := hbad
    cases hr
  | cons r rs ih =>
    obtain ⟨r2, hr2, hnone⟩ := hbad
    simp only [runRecords]
    cases hp : processRecord schemas st r with
    | mk st1 err =>
      cases err with
      | some e => simp
      | none =>
        rcases List.mem_cons.mp hr2 with h1 | h2
        · subst h1
          rw [processRecord_success_name schemas st r2 st1 hp] at hnone
          cases hnone
        · exact ih st1 ⟨r2, h2, hnone⟩


/-! ## C6 -/

/-- The node schema of the C6 counterexample. -/
def extraNode : NodeSchema := ⟨"n", [⟨"project_id", [AvroType.scalar "string"]⟩]⟩

/-- The node metadata of the C6 counterexample. -/
def extraMeta : NodeMetadata := ⟨"n", [], [], none, []⟩

/-- The record of the C6 counterexample: its node name is in the catalog,
but its object carries the undeclared key "oops". -/
def extraRecord : PFBRecord :=
  ⟨"n", [("project_id", JSON.str "P"), ("oops", JSON.int 1)], []⟩

/-- C6 counterexample: the two listed conditions are not the only failure
causes — here every schema node has metadata and the record's node name is
in the catalog, yet the run still fails (the record's object carries an
undeclared key). -/
theorem C6_counterexample :
    (∀ node ∈ [extraNode], (node_meta_lookup [extraMeta] node.name).isSome)
    ∧ (∀ r ∈ [extraRecord], r.name ∈ [extraNode].map NodeSchema.name)
    ∧ (runFrictionless [extraNode] [extraMeta] [extraRecord]).2
        = some "ValueError: dict contains fields not in fieldnames" := by
  refine ⟨?_, ?_, rfl⟩ <;> decide

/-- C6 (amended): the run fails whenever a node of the schema listing has no
matching metadata entry, or some record's node name is absent from the
Schema Catalog — in both cases the error propagates and no success result is
returned (these are sufficient conditions; other defects, such as an
undeclared object key, also abort the run). -/
theorem C6_error_conditions (schemaList : List NodeSchema)
    (metaNodes : List NodeMetadata) (records : List PFBRecord)
    (h : (∃ node ∈ schemaList, node_meta_lookup metaNodes node.name = none)
       ∨ (∃ r ∈ records, r.name ∉ schemaList.map NodeSchema.name)) :
    (runFrictionless schemaList metaNodes records).2 ≠ none := by
  rcases h with h1 | h2
  · obtain ⟨e, he⟩ := get_schemas_aux_error metaNodes schemaList [] h1
    have he2 : _get_schemas schemaList metaNodes = Except.error e := he
    simp [runFrictionless, he2]
  · cases hs : _get_schemas schemaList metaNodes with
    | error e => simp [runFrictionless, hs]
    | ok schemas =>
      obtain ⟨r, hr, hnot⟩ := h2
      have hnone : (assocGet schemas r.name).isSome = false :=
        get_schemas_keys_none schemaList metaNodes schemas hs r.name hnot
      have hbad := runRecords_error_of_bad schemas emptyState records ⟨r, hr, hnone⟩
      simp only [runFrictionless, hs]
      cases hrun : runRecords schemas emptyState records with
      | mk st err =>
        rw [hrun] at hbad
        cases err with
        | some e => simp
        | none => simp at hbad

/-- Witness for C6: a schema listing with a node that has no metadata entry
makes the run fail. -/
theorem C6_error_conditions_witness :
    (runFrictionless [extraNode] [] []).2 ≠ none :=
  C6_error_conditions [extraNode] [] []
    (Or.inl ⟨extraNode, List.mem_singleton_self _, rfl⟩)

end PFB
